import Mathlib

/-!
Verification of the training harness in `src/scripts/train.py`
(repository CNN_deconvolution).

The script's core is `train_and_evaluate`: it loads train/validation/test
data, checks that the pixel-shuffle permutations used for training and
testing agree, builds one of four model variants, runs an epoch loop
(capped at 25 epochs) with early stopping driven by the cumulative
per-epoch validation loss, and finally evaluates the model on the test
set.  `main_train` iterates a configuration list, appends each result row
to a CSV file and rewrites a JSON loss-history file after every
configuration.

The embedding below follows the source line by line.  Quantities the
script obtains from the external data/model collaborators (per-batch loss
values, the model's parameter evolution, the test metrics) are abstracted
as oracle fields of an `Env` structure; everything the script itself
computes (loss accumulation, the recorded means, the early-stopping state
machine, the control flow, the file bookkeeping) is modelled explicitly.
Python float values are modelled by `FVal`: an exact rational for a finite
float, plus the two infinities and NaN, with the IEEE comparison and
addition behaviour that the early-stopping `<` test actually sees.
-/

namespace Train

/-- A Python float as the script's comparisons observe it: a finite value
(modelled exactly as a rational), one of the two infinities, or NaN. -/
inductive FVal where
  | fin (q : ℚ)
  | inf
  | ninf
  | nan
deriving DecidableEq

/-- IEEE `<` on floats: any comparison with NaN is false, `inf` is below
nothing, `-inf` is below everything except itself and NaN. -/
def FVal.lt : FVal → FVal → Bool
  | .nan, _ => false
  | _, .nan => false
  | .fin a, .fin b => decide (a < b)
  | .fin _, .inf => true
  | .fin _, .ninf => false
  | .inf, _ => false
  | .ninf, .ninf => false
  | .ninf, _ => true

/-- IEEE `+` on floats: NaN propagates, `inf + -inf` is NaN, an infinity
absorbs finite values. -/
def FVal.add : FVal → FVal → FVal
  | .nan, _ => .nan
  | _, .nan => .nan
  | .inf, .ninf => .nan
  | .ninf, .inf => .nan
  | .inf, _ => .inf
  | _, .inf => .inf
  | .ninf, _ => .ninf
  | _, .ninf => .ninf
  | .fin a, .fin b => .fin (a + b)

/-- `epoch_loss = 0.0` followed by `epoch_loss += loss.item()` over the
batches (train.py lines 83, 92 and 97, 104). -/
def FVal.sum (l : List FVal) : FVal := l.foldl FVal.add (FVal.fin 0)

/-- Division of an accumulated loss by a batch count, as in
`epoch_train_loss / len(train_loader)` (train.py lines 93 and 105). -/
def FVal.divNat : FVal → ℕ → FVal
  | .fin q, n => .fin (q / (n : ℚ))
  | .inf, _ => .inf
  | .ninf, _ => .ninf
  | .nan, _ => .nan

/-- Whether a float value is finite (neither an infinity nor NaN). -/
def FVal.isFinite : FVal → Bool
  | .fin _ => true
  | _ => false

/-- The four test metrics computed at train.py lines 131-134. -/
structure Metrics where
  accuracy : ℚ
  f1 : ℚ
  precision : ℚ
  recall_score : ℚ
deriving DecidableEq

/-- The external collaborators of one `train_and_evaluate` invocation,
abstracted over the model's parameter-state type `P`:
* `params0` is the model as constructed (train.py lines 44-69);
* `trainEpoch e p` is the parameter state after the training phase of
  epoch `e` starting from `p` (the `optimizer.step()` updates of lines
  84-91);
* `trainBatchLosses e` / `valBatchLosses e` are the per-batch losses
  observed while iterating the train and validation loaders at epoch `e`
  (the `loss.item()` values of lines 92 and 104);
* `testMetrics p` is the test phase plus metric computation of lines
  117-134 for parameter state `p`;
* `numParams` is the trainable-parameter count of line 136. -/
structure Env (P : Type) where
  params0 : P
  trainEpoch : ℕ → P → P
  trainBatchLosses : ℕ → List FVal
  valBatchLosses : ℕ → List FVal
  testMetrics : P → Metrics
  numParams : ℕ

/-- `patience = 5` (train.py line 26). -/
def patience : ℕ := 5

/-- The epoch cap `range(25)` (train.py line 80). -/
def numEpochs : ℕ := 25

/-- The mutable state of the epoch loop: `best_val_loss` (line 25),
`epochs_without_improvement` (line 78), the two recorded histories
`train_losses`/`val_losses` (lines 76-77), the model parameters, and
whether the `break` of line 115 has executed. -/
structure LoopState (P : Type) where
  best_val_loss : FVal
  epochs_without_improvement : ℕ
  train_losses : List FVal
  val_losses : List FVal
  params : P
  stopped : Bool

/-- The cumulative validation loss of epoch `e`: the undivided sum of the
epoch's per-batch validation losses (`epoch_val_loss` at line 104). -/
def valSum (env : Env P) (e : ℕ) : FVal := FVal.sum (env.valBatchLosses e)

/-- One iteration of the epoch loop body (train.py lines 81-115): run the
training phase, append the mean train batch loss to `train_losses` (line
93), run the validation phase, append the mean validation batch loss to
`val_losses` (line 105), then the early-stopping update of lines 108-115:
compare the cumulative `epoch_val_loss` against `best_val_loss`; on strict
improvement update the best and reset the counter, otherwise increment the
counter and `break` (recorded in `stopped`) once it reaches `patience`. -/
def doEpoch (env : Env P) (e : ℕ) (s : LoopState P) : LoopState P :=
  if FVal.lt (valSum env e) s.best_val_loss then
    { best_val_loss := valSum env e
      epochs_without_improvement := 0
      train_losses := s.train_losses ++
        [FVal.divNat (FVal.sum (env.trainBatchLosses e)) (env.trainBatchLosses e).length]
      val_losses := s.val_losses ++
        [FVal.divNat (valSum env e) (env.valBatchLosses e).length]
      params := env.trainEpoch e s.params
      stopped := false }
  else
    { best_val_loss := s.best_val_loss
      epochs_without_improvement := s.epochs_without_improvement + 1
      train_losses := s.train_losses ++
        [FVal.divNat (FVal.sum (env.trainBatchLosses e)) (env.trainBatchLosses e).length]
      val_losses := s.val_losses ++
        [FVal.divNat (valSum env e) (env.valBatchLosses e).length]
      params := env.trainEpoch e s.params
      stopped := decide (patience ≤ s.epochs_without_improvement + 1) }

/-- The `for epoch in range(25)` loop (train.py line 80) over the list of
remaining epoch indices: once `break` has executed (`stopped`), no further
epoch body runs. -/
def epochLoop (env : Env P) : LoopState P → List ℕ → LoopState P
  | s, [] => s
  | s, e :: l => if s.stopped then s else epochLoop env (doEpoch env e s) l

/-- The state entering the epoch loop: `best_val_loss = float("inf")`
(line 25), counter 0 (line 78), empty histories (lines 76-77). -/
def initState (env : Env P) : LoopState P :=
  { best_val_loss := FVal.inf
    epochs_without_improvement := 0
    train_losses := []
    val_losses := []
    params := env.params0
    stopped := false }

/-- The loop state after the first `n` of the 25 epoch iterations. -/
def runUpTo (env : Env P) (n : ℕ) : LoopState P :=
  epochLoop env (initState env) (List.range n)

/-- The loop state when the epoch loop of train.py line 80 has finished. -/
def runLoop (env : Env P) : LoopState P := runUpTo env numEpochs

/-- The parameter state after `n` executed training epochs, starting from
the freshly constructed model. -/
def trainedParams (env : Env P) (n : ℕ) : P :=
  (List.range n).foldl (fun p e => env.trainEpoch e p) env.params0

/-- The 7-tuple `train_and_evaluate` returns (train.py line 138). -/
structure RunOutput where
  train_losses : List FVal
  val_losses : List FVal
  accuracy : ℚ
  f1 : ℚ
  precision : ℚ
  recall_score : ℚ
  num_params : ℕ
deriving DecidableEq

/-- The shuffle-order consistency test of train.py lines 39-42: the
`assert np.array_equal(...)` runs only when BOTH orders are not `None`;
the check passes (`true`) in every other case. -/
def shuffleCheck : Option (List ℤ) → Option (List ℤ) → Bool
  | some a, some b => decide (a = b)
  | _, _ => true

/-- The closed set of accepted model types (train.py lines 44-71). -/
def modelTypes : List String := ["MLP", "MLP_3CH", "CNN", "CNN_3CH"]

/-- The tuple returned at train.py line 138 when the run completes: the
recorded histories, the test metrics computed from the loop's final
parameter state (lines 117-134), and the parameter count (line 136). -/
def runOutputOf (env : Env P) : RunOutput :=
  { train_losses := (runLoop env).train_losses
    val_losses := (runLoop env).val_losses
    accuracy := (env.testMetrics (runLoop env).params).accuracy
    f1 := (env.testMetrics (runLoop env).params).f1
    precision := (env.testMetrics (runLoop env).params).precision
    recall_score := (env.testMetrics (runLoop env).params).recall_score
    num_params := env.numParams }

/-- `train_and_evaluate` (train.py lines 23-138).  The data loading is
absorbed into `env` except for the four shuffle orders it returns
(`rows1`/`cols1` from `load_training_data`, `rows`/`cols` from
`load_testing_data`), which the script checks explicitly: a failed
columns assert (line 40), then a failed rows assert (line 42), then an
unrecognised `model_type` (line 71) abort the run, modelled as
`Except.error` with the corresponding message.  Otherwise the epoch loop
runs and the result tuple is returned. -/
def train_and_evaluate (env : Env P) (model_type : String)
    (rows1 cols1 rows cols : Option (List ℤ)) : Except String RunOutput :=
  if shuffleCheck cols1 cols = false then
    Except.error "Shuffle order columns do not match!"
  else if shuffleCheck rows1 rows = false then
    Except.error "Shuffle order rows do not match!"
  else if model_type ∈ modelTypes then
    Except.ok (runOutputOf env)
  else
    Except.error "Invalid model type!"

/-- The per-configuration entry of the loss-history JSON file: the pair
of the train and validation loss sequences (train.py lines 181-184). -/
abbrev LossPair := List FVal × List FVal

/-- One row of the results CSV, built at train.py lines 170-178:
`model_index`, the configuration's own fields (kept abstract as one value
of type `Cfg`), and the derived metric fields. -/
structure ResultRecord (Cfg : Type) where
  model_index : ℕ
  config : Cfg
  num_params : ℕ
  accuracy : ℚ
  f1 : ℚ
  precision : ℚ
  recall_score : ℚ
deriving DecidableEq

/-- A line of the results CSV file: the header line or one data row. -/
inductive CsvLine (Cfg : Type) where
  | header
  | row (r : ResultRecord Cfg)
deriving DecidableEq

/-- Whether a CSV line is the header line. -/
def CsvLine.isHeader : CsvLine Cfg → Bool
  | .header => true
  | .row _ => false

/-- How many header lines a CSV file state contains. -/
def countHeaders (file : List (CsvLine Cfg)) : ℕ := file.countP CsvLine.isHeader

/-- How many data rows a CSV file state contains. -/
def countRows (file : List (CsvLine Cfg)) : ℕ :=
  file.countP (fun l => !l.isHeader)

/-- The incremental append of train.py lines 187-188: the new record is
written as one row, with the header emitted first exactly when the file
is currently empty (`header=f.tell() == 0` on a file opened in append
mode). -/
def appendCsv (file : List (CsvLine Cfg)) (r : ResultRecord Cfg) :
    List (CsvLine Cfg) :=
  if file.isEmpty then [CsvLine.header, CsvLine.row r] else file ++ [CsvLine.row r]

/-- The key `f"model_{idx}"` of the loss-history JSON (train.py line 181). -/
def lossKey (idx : ℕ) : String := "model_" ++ toString idx

/-- The result record built for configuration `cfg` at position `idx` from
the `train_and_evaluate` output `out` (train.py lines 170-178). -/
def mkRecord (idx : ℕ) (cfg : Cfg) (out : RunOutput) : ResultRecord Cfg :=
  { model_index := idx
    config := cfg
    num_params := out.num_params
    accuracy := out.accuracy
    f1 := out.f1
    precision := out.precision
    recall_score := out.recall_score }

/-- The orchestrator's state: the in-memory `results` list and `all_losses`
mapping (train.py lines 155-156) and the on-disk contents of the results
CSV and the loss-history JSON.  The JSON file is modelled as the ordered
key/value list `json.dump` writes. -/
structure OrchState (Cfg : Type) where
  results : List (ResultRecord Cfg)
  all_losses : List (String × LossPair)
  csvFile : List (CsvLine Cfg)
  jsonFile : List (String × LossPair)

/-- One iteration of the configuration loop (train.py lines 158-191):
run `train_and_evaluate` (its successful output for position `idx` is
supplied by the oracle `runs`, since a raised exception aborts the whole
process), append the result record and the loss entry to the in-memory
accumulators, append the single new row to the CSV file, and rewrite the
JSON file with the accumulated `all_losses`. -/
def orchStep (runs : ℕ → RunOutput) (idx : ℕ) (cfg : Cfg) (s : OrchState Cfg) :
    OrchState Cfg :=
  { results := s.results ++ [mkRecord idx cfg (runs idx)]
    all_losses := s.all_losses ++
      [(lossKey idx, ((runs idx).train_losses, (runs idx).val_losses))]
    csvFile := appendCsv s.csvFile (mkRecord idx cfg (runs idx))
    jsonFile := s.all_losses ++
      [(lossKey idx, ((runs idx).train_losses, (runs idx).val_losses))] }

/-- `for idx, config in enumerate(configurations)` (train.py line 158),
with `idx` threaded explicitly. -/
def orchLoop (runs : ℕ → RunOutput) : ℕ → List Cfg → OrchState Cfg → OrchState Cfg
  | _, [], s => s
  | idx, cfg :: rest, s => orchLoop runs (idx + 1) rest (orchStep runs idx cfg s)

/-- The orchestrator's starting state: empty accumulators (train.py lines
155-156) and, per the durability scenario of the spec, an empty or absent
results CSV and loss-history JSON on disk. -/
def initOrch : OrchState Cfg :=
  { results := [], all_losses := [], csvFile := [], jsonFile := [] }

/-- The final rewrites of train.py lines 193-200: the whole results list
is written again as one CSV (header first, then every row, overwriting
the file), and the loss-history JSON is rewritten from `all_losses`. -/
def finalizeOrch (s : OrchState Cfg) : OrchState Cfg :=
  { s with
    csvFile := CsvLine.header :: s.results.map CsvLine.row
    jsonFile := s.all_losses }

/-- `main_train` (train.py lines 140-201) for a parsed configuration list
`cfgs`, with the successful per-index `train_and_evaluate` outputs
abstracted as `runs`. -/
def main_train (runs : ℕ → RunOutput) (cfgs : List Cfg) : OrchState Cfg :=
  finalizeOrch (orchLoop runs 0 cfgs initOrch)

/-- The orchestrator's state once the first `j` configurations have
completed (and before configuration `j` starts), starting from empty
or absent output files. -/
def orchUpTo (runs : ℕ → RunOutput) (cfgs : List Cfg) (j : ℕ) : OrchState Cfg :=
  orchLoop runs 0 (cfgs.take j) initOrch

/-- The records `orchLoop` builds for the configurations `cfgs` when the
enumeration starts at position `idx`. -/
def expRecords (runs : ℕ → RunOutput) : ℕ → List Cfg → List (ResultRecord Cfg)
  | _, [] => []
  | idx, cfg :: rest => mkRecord idx cfg (runs idx) :: expRecords runs (idx + 1) rest

/-- The loss-history entries `orchLoop` builds for the configurations
`cfgs` when the enumeration starts at position `idx`. -/
def expLosses (runs : ℕ → RunOutput) : ℕ → List Cfg → List (String × LossPair)
  | _, [] => []
  | idx, _ :: rest =>
    (lossKey idx, ((runs idx).train_losses, (runs idx).val_losses)) ::
      expLosses runs (idx + 1) rest

/-- A concrete environment used to instantiate theorems: a trivial
parameter state and a constant per-batch loss of 1. -/
def unitEnv : Env Unit :=
  { params0 := ()
    trainEpoch := fun _ _ => ()
    trainBatchLosses := fun _ => [FVal.fin 1]
    valBatchLosses := fun _ => [FVal.fin 1]
    testMetrics := fun _ => { accuracy := 1, f1 := 1, precision := 1, recall_score := 1 }
    numParams := 0 }

/-- The successful output of `train_and_evaluate` on `unitEnv` with a
valid model type and passing shuffle checks. -/
def uOut : RunOutput := runOutputOf unitEnv

/-- A fixed `train_and_evaluate` output with empty histories and zero
metrics, used as a constant oracle when exercising the orchestrator. -/
def zeroOut : RunOutput :=
  { train_losses := []
    val_losses := []
    accuracy := 0
    f1 := 0
    precision := 0
    recall_score := 0
    num_params := 0 }

/-- The synthetic per-epoch cumulative validation-loss sequence of the
spec's early-stopping test: `[10, 9, 9, 9, 9, 9, 5]` (epochs beyond the
seventh repeat the final value). -/
def c2seq : List ℚ := [10, 9, 9, 9, 9, 9, 5]

/-- An environment whose epoch `e` has a single validation batch with
loss `c2seq[e]` (and 5 from epoch 7 on), so the cumulative validation
loss of epoch `e` is exactly the synthetic sequence's value. -/
def c2Env : Env Unit :=
  { params0 := ()
    trainEpoch := fun _ _ => ()
    trainBatchLosses := fun _ => [FVal.fin 1]
    valBatchLosses := fun e => [FVal.fin (c2seq.getD e 5)]
    testMetrics := fun _ => { accuracy := 1, f1 := 1, precision := 1, recall_score := 1 }
    numParams := 0 }

/-- Whether epoch `e` (0-based) runs and fails to strictly improve the
best cumulative validation loss held when it runs: the loop has not
stopped before epoch `e`, and epoch `e`'s cumulative validation loss is
not strictly below the `best_val_loss` in force at that point. -/
def failsAtB (env : Env P) (e : ℕ) : Bool :=
  !(runUpTo env e).stopped &&
    !(FVal.lt (valSum env e) ((runUpTo env e).best_val_loss))

/-! ### Basic lemmas about the epoch loop -/

theorem epochLoop_nil (env : Env P) (s : LoopState P) : epochLoop env s [] = s := rfl

theorem epochLoop_cons (env : Env P) (s : LoopState P) (e : ℕ) (l : List ℕ) :
    epochLoop env s (e :: l) =
      if s.stopped then s else epochLoop env (doEpoch env e s) l := rfl

theorem epochLoop_of_stopped (env : Env P) (s : LoopState P) (h : s.stopped = true) :
    ∀ l, epochLoop env s l = s
  | [] => rfl
  | e :: l => by rw [epochLoop_cons, if_pos h]

theorem epochLoop_append (env : Env P) (l₁ l₂ : List ℕ) (s : LoopState P) :
    epochLoop env s (l₁ ++ l₂) = epochLoop env (epochLoop env s l₁) l₂ := by
  induction l₁ generalizing s with
  | nil => rfl
  | cons e l ih =>
    rw [List.cons_append, epochLoop_cons, epochLoop_cons]
    by_cases h : s.stopped = true
    · rw [if_pos h, if_pos h, epochLoop_of_stopped env s h]
    · rw [if_neg h, if_neg h, ih]

theorem runUpTo_zero (env : Env P) : runUpTo env 0 = initState env := rfl

theorem runUpTo_succ (env : Env P) (n : ℕ) :
    runUpTo env (n + 1) =
      if (runUpTo env n).stopped then runUpTo env n
      else doEpoch env n (runUpTo env n) := by
  unfold runUpTo
  rw [List.range_succ, epochLoop_append, epochLoop_cons]
  by_cases h : (epochLoop env (initState env) (List.range n)).stopped = true
  · rw [if_pos h, if_pos h]
  · rw [if_neg h, if_neg h, epochLoop_nil]

theorem doEpoch_train_losses (env : Env P) (e : ℕ) (s : LoopState P) :
    (doEpoch env e s).train_losses = s.train_losses ++
      [FVal.divNat (FVal.sum (env.trainBatchLosses e)) (env.trainBatchLosses e).length] := by
  unfold doEpoch; split <;> rfl

theorem doEpoch_val_losses (env : Env P) (e : ℕ) (s : LoopState P) :
    (doEpoch env e s).val_losses = s.val_losses ++
      [FVal.divNat (valSum env e) (env.valBatchLosses e).length] := by
  unfold doEpoch; split <;> rfl

theorem doEpoch_params (env : Env P) (e : ℕ) (s : LoopState P) :
    (doEpoch env e s).params = env.trainEpoch e s.params := by
  unfold doEpoch; split <;> rfl

theorem doEpoch_of_lt (env : Env P) (e : ℕ) (s : LoopState P)
    (h : FVal.lt (valSum env e) s.best_val_loss = true) :
    (doEpoch env e s).best_val_loss = valSum env e ∧
    (doEpoch env e s).epochs_without_improvement = 0 ∧
    (doEpoch env e s).stopped = false := by
  unfold doEpoch
  rw [if_pos h]
  exact ⟨rfl, rfl, rfl⟩

theorem doEpoch_of_not_lt (env : Env P) (e : ℕ) (s : LoopState P)
    (h : FVal.lt (valSum env e) s.best_val_loss = false) :
    (doEpoch env e s).best_val_loss = s.best_val_loss ∧
    (doEpoch env e s).epochs_without_improvement = s.epochs_without_improvement + 1 ∧
    (doEpoch env e s).stopped = decide (patience ≤ s.epochs_without_improvement + 1) := by
  unfold doEpoch
  rw [if_neg (by rw [h]; exact Bool.false_ne_true)]
  exact ⟨rfl, rfl, rfl⟩

theorem doEpoch_stopped_iff (env : Env P) (e : ℕ) (s : LoopState P) :
    (doEpoch env e s).stopped = true ↔
      FVal.lt (valSum env e) s.best_val_loss = false ∧
        patience ≤ s.epochs_without_improvement + 1 := by
  by_cases h : FVal.lt (valSum env e) s.best_val_loss = true
  · rw [(doEpoch_of_lt env e s h).2.2]
    simp [h]
  · rw [Bool.not_eq_true] at h
    rw [(doEpoch_of_not_lt env e s h).2.2]
    simp [h]

theorem stopped_mono (env : Env P) {m n : ℕ} (hmn : m ≤ n)
    (h : (runUpTo env m).stopped = true) : (runUpTo env n).stopped = true := by
  induction n, hmn using Nat.le_induction with
  | base => exact h
  | succ n _ ih =>
    rw [runUpTo_succ, if_pos ih]
    exact ih

theorem runUpTo_lengths (env : Env P) :
    ∀ n, (runUpTo env n).train_losses.length = (runUpTo env n).val_losses.length ∧
      (runUpTo env n).val_losses.length ≤ n ∧
      ((runUpTo env n).stopped = false → (runUpTo env n).val_losses.length = n) := by
  intro n
  induction n with
  | zero => exact ⟨rfl, Nat.le_refl 0, fun _ => rfl⟩
  | succ n ih =>
    rw [runUpTo_succ]
    by_cases h : (runUpTo env n).stopped = true
    · rw [if_pos h]
      refine ⟨ih.1, Nat.le_succ_of_le ih.2.1, fun hc => absurd h ?_⟩
      rw [hc]; exact Bool.false_ne_true
    · rw [Bool.not_eq_true] at h
      rw [if_neg (by rw [h]; exact Bool.false_ne_true)]
      rw [doEpoch_train_losses, doEpoch_val_losses, List.length_append, List.length_append]
      have hn := ih.2.2 h
      refine ⟨by simp [ih.1], ?_, fun _ => by simp [hn]⟩
      simp [hn]

theorem runUpTo_len_mono (env : Env P) {m n : ℕ} (hmn : m ≤ n) :
    (runUpTo env m).val_losses.length ≤ (runUpTo env n).val_losses.length := by
  induction n, hmn using Nat.le_induction with
  | base => exact Nat.le_refl _
  | succ n _ ih =>
    rw [runUpTo_succ]
    by_cases h : (runUpTo env n).stopped = true
    · rw [if_pos h]; exact ih
    · rw [if_neg h, doEpoch_val_losses, List.length_append]
      exact Nat.le_trans ih (Nat.le_add_right _ _)

theorem ctr_le_four (env : Env P) :
    ∀ n, (runUpTo env n).stopped = false →
      (runUpTo env n).epochs_without_improvement ≤ 4 := by
  intro n
  induction n with
  | zero => intro _; exact Nat.zero_le 4
  | succ n ih =>
    intro h
    rw [runUpTo_succ] at h ⊢
    by_cases hs : (runUpTo env n).stopped = true
    · rw [if_pos hs] at h
      rw [h] at hs
      exact absurd hs Bool.false_ne_true
    · rw [if_neg hs] at h ⊢
      by_cases hlt : FVal.lt (valSum env n) ((runUpTo env n).best_val_loss) = true
      · rw [(doEpoch_of_lt env n _ hlt).2.1]
        exact Nat.zero_le 4
      · rw [Bool.not_eq_true] at hlt
        rw [(doEpoch_of_not_lt env n _ hlt).2.1]
        rw [(doEpoch_of_not_lt env n _ hlt).2.2] at h
        have : ¬ (patience ≤ (runUpTo env n).epochs_without_improvement + 1) := of_decide_eq_false h
        unfold patience at this
        omega

theorem fails_of_ctr (env : Env P) :
    ∀ n, (runUpTo env n).stopped = false →
      ∀ i, i < (runUpTo env n).epochs_without_improvement →
        1 + i ≤ n ∧ (runUpTo env (n - 1 - i)).stopped = false ∧
          FVal.lt (valSum env (n - 1 - i)) ((runUpTo env (n - 1 - i)).best_val_loss) = false := by
  intro n
  induction n with
  | zero =>
    intro _ i hi
    exact absurd hi (by rw [show (runUpTo env 0).epochs_without_improvement = 0 from rfl]; omega)
  | succ n ih =>
    intro h i hi
    rw [runUpTo_succ] at h hi
    by_cases hs : (runUpTo env n).stopped = true
    · rw [if_pos hs] at h
      rw [h] at hs
      exact absurd hs Bool.false_ne_true
    · rw [Bool.not_eq_true] at hs
      have hs' : ¬ ((runUpTo env n).stopped = true) := by
        rw [hs]; exact Bool.false_ne_true
      rw [if_neg hs'] at hi
      by_cases hlt : FVal.lt (valSum env n) ((runUpTo env n).best_val_loss) = true
      · rw [(doEpoch_of_lt env n _ hlt).2.1] at hi
        exact absurd hi (by omega)
      · rw [Bool.not_eq_true] at hlt
        rw [(doEpoch_of_not_lt env n _ hlt).2.1] at hi
        match i with
        | 0 =>
          have e1 : n + 1 - 1 - 0 = n := by omega
          rw [e1]
          exact ⟨by omega, hs, hlt⟩
        | j + 1 =>
          have hj : j < (runUpTo env n).epochs_without_improvement := by omega
          have := ih hs j hj
          have e1 : n + 1 - 1 - (j + 1) = n - 1 - j := by omega
          rw [e1]
          exact ⟨by omega, this.2.1, this.2.2⟩

theorem switch_exists (env : Env P) :
    ∀ n, (runUpTo env n).stopped = true →
      ∃ m, m < n ∧ (runUpTo env m).stopped = false ∧ (runUpTo env (m + 1)).stopped = true := by
  intro n
  induction n with
  | zero => intro h; exact absurd h (by rw [show (runUpTo env 0).stopped = false from rfl]; exact Bool.false_ne_true)
  | succ n ih =>
    intro h
    by_cases hs : (runUpTo env n).stopped = true
    · obtain ⟨m, hm, h1, h2⟩ := ih hs
      exact ⟨m, by omega, h1, h2⟩
    · rw [Bool.not_eq_true] at hs
      exact ⟨n, by omega, hs, h⟩

theorem trainedParams_succ (env : Env P) (n : ℕ) :
    trainedParams env (n + 1) = env.trainEpoch n (trainedParams env n) := by
  unfold trainedParams
  rw [List.range_succ, List.foldl_append]
  rfl

theorem runUpTo_params (env : Env P) :
    ∀ n, (runUpTo env n).params = trainedParams env ((runUpTo env n).val_losses.length) := by
  intro n
  induction n with
  | zero => rfl
  | succ n ih =>
    rw [runUpTo_succ]
    by_cases h : (runUpTo env n).stopped = true
    · rw [if_pos h]; exact ih
    · rw [Bool.not_eq_true] at h
      rw [if_neg (by rw [h]; exact Bool.false_ne_true)]
      rw [doEpoch_params, doEpoch_val_losses, List.length_append]
      have hn := (runUpTo_lengths env n).2.2 h
      rw [ih, hn]
      simp [trainedParams_succ]

theorem lt_inf_of_isFinite {v : FVal} (h : v.isFinite = true) :
    FVal.lt v FVal.inf = true := by
  cases v with
  | fin q => rfl
  | inf => exact absurd h (by simp [FVal.isFinite])
  | ninf => rfl
  | nan => exact absurd h (by simp [FVal.isFinite])

theorem no_stop_before_six (env : Env P) (h0 : (valSum env 0).isFinite = true) :
    ∀ j, 1 ≤ j → j ≤ 5 →
      (runUpTo env j).stopped = false ∧
        (runUpTo env j).epochs_without_improvement + 1 ≤ j := by
  intro j
  induction j with
  | zero => intro h; omega
  | succ j ih =>
    intro _ hj5
    by_cases hj : j = 0
    · subst hj
      have h1 : runUpTo env 1 = doEpoch env 0 (initState env) := by
        rw [runUpTo_succ]
        rfl
      have hlt : FVal.lt (valSum env 0) ((initState env).best_val_loss) = true :=
        lt_inf_of_isFinite h0
      have hd := doEpoch_of_lt env 0 (initState env) hlt
      rw [h1, hd.2.2, hd.2.1]
      exact ⟨rfl, by omega⟩
    · have ihj := ih (by omega) (by omega)
      rw [runUpTo_succ, if_neg (by rw [ihj.1]; exact Bool.false_ne_true)]
      by_cases hlt : FVal.lt (valSum env j) ((runUpTo env j).best_val_loss) = true
      · have hd := doEpoch_of_lt env j _ hlt
        rw [hd.2.2, hd.2.1]
        exact ⟨rfl, by omega⟩
      · rw [Bool.not_eq_true] at hlt
        have hd := doEpoch_of_not_lt env j _ hlt
        have hc : ¬ (patience ≤ (runUpTo env j).epochs_without_improvement + 1) := by
          have := ihj.2
          unfold patience
          omega
        rw [hd.2.2, hd.2.1, decide_eq_false hc]
        have := ihj.2
        exact ⟨rfl, by omega⟩

/-! ### Basic lemmas about the orchestrator -/

theorem orchLoop_results (runs : ℕ → RunOutput) :
    ∀ (cfgs : List Cfg) (idx : ℕ) (s : OrchState Cfg),
      (orchLoop runs idx cfgs s).results = s.results ++ expRecords runs idx cfgs := by
  intro cfgs
  induction cfgs with
  | nil => intro idx s; simp [orchLoop, expRecords]
  | cons cfg rest ih =>
    intro idx s
    rw [show orchLoop runs idx (cfg :: rest) s = orchLoop runs (idx + 1) rest (orchStep runs idx cfg s) from rfl]
    rw [ih]
    simp [orchStep, expRecords]

theorem orchLoop_all_losses (runs : ℕ → RunOutput) :
    ∀ (cfgs : List Cfg) (idx : ℕ) (s : OrchState Cfg),
      (orchLoop runs idx cfgs s).all_losses = s.all_losses ++ expLosses runs idx cfgs := by
  intro cfgs
  induction cfgs with
  | nil => intro idx s; simp [orchLoop, expLosses]
  | cons cfg rest ih =>
    intro idx s
    rw [show orchLoop runs idx (cfg :: rest) s = orchLoop runs (idx + 1) rest (orchStep runs idx cfg s) from rfl]
    rw [ih]
    simp [orchStep, expLosses]

theorem orchLoop_jsonFile (runs : ℕ → RunOutput) :
    ∀ (cfgs : List Cfg) (idx : ℕ) (s : OrchState Cfg),
      s.jsonFile = s.all_losses →
      (orchLoop runs idx cfgs s).jsonFile = (orchLoop runs idx cfgs s).all_losses := by
  intro cfgs
  induction cfgs with
  | nil => intro idx s h; exact h
  | cons cfg rest ih =>
    intro idx s _
    rw [show orchLoop runs idx (cfg :: rest) s = orchLoop runs (idx + 1) rest (orchStep runs idx cfg s) from rfl]
    exact ih (idx + 1) _ rfl

theorem orchLoop_csvFile (runs : ℕ → RunOutput) :
    ∀ (cfgs : List Cfg) (idx : ℕ) (s : OrchState Cfg),
      (orchLoop runs idx cfgs s).csvFile =
        (expRecords runs idx cfgs).foldl appendCsv s.csvFile := by
  intro cfgs
  induction cfgs with
  | nil => intro idx s; rfl
  | cons cfg rest ih =>
    intro idx s
    rw [show orchLoop runs idx (cfg :: rest) s = orchLoop runs (idx + 1) rest (orchStep runs idx cfg s) from rfl]
    rw [ih]
    rfl

theorem foldl_appendCsv_of_ne_nil :
    ∀ (recs : List (ResultRecord Cfg)) (file : List (CsvLine Cfg)), file ≠ [] →
      recs.foldl appendCsv file = file ++ recs.map CsvLine.row := by
  intro recs
  induction recs with
  | nil => intro file _; simp
  | cons r rest ih =>
    intro file hf
    rw [List.foldl_cons, show appendCsv file r = file ++ [CsvLine.row r] from by
      unfold appendCsv
      rw [if_neg (by simp [hf])]]
    rw [ih _ (by simp)]
    simp

theorem foldl_appendCsv_nil :
    ∀ (recs : List (ResultRecord Cfg)), recs ≠ [] →
      recs.foldl appendCsv [] = CsvLine.header :: recs.map CsvLine.row := by
  intro recs hr
  match recs with
  | [] => exact absurd rfl hr
  | r :: rest =>
    rw [List.foldl_cons, show appendCsv ([] : List (CsvLine Cfg)) r = [CsvLine.header, CsvLine.row r] from rfl]
    rw [foldl_appendCsv_of_ne_nil rest _ (by simp)]
    simp

theorem expRecords_length (runs : ℕ → RunOutput) :
    ∀ (cfgs : List Cfg) (idx : ℕ), (expRecords runs idx cfgs).length = cfgs.length := by
  intro cfgs
  induction cfgs with
  | nil => intro idx; rfl
  | cons cfg rest ih => intro idx; simp [expRecords, ih]

theorem expLosses_length (runs : ℕ → RunOutput) :
    ∀ (cfgs : List Cfg) (idx : ℕ), (expLosses runs idx cfgs).length = cfgs.length := by
  intro cfgs
  induction cfgs with
  | nil => intro idx; rfl
  | cons cfg rest ih => intro idx; simp [expLosses, ih]

theorem expRecords_getElem? (runs : ℕ → RunOutput) :
    ∀ (cfgs : List Cfg) (idx i : ℕ),
      (expRecords runs idx cfgs)[i]? =
        cfgs[i]?.map (fun c => mkRecord (idx + i) c (runs (idx + i))) := by
  intro cfgs
  induction cfgs with
  | nil => intro idx i; simp [expRecords]
  | cons cfg rest ih =>
    intro idx i
    match i with
    | 0 => simp [expRecords]
    | i + 1 =>
      rw [show expRecords runs idx (cfg :: rest) = mkRecord idx cfg (runs idx) :: expRecords runs (idx + 1) rest from rfl]
      simp only [List.getElem?_cons_succ]
      rw [ih (idx + 1) i]
      have e1 : idx + 1 + i = idx + (i + 1) := by omega
      rw [e1]

theorem expLosses_getElem? (runs : ℕ → RunOutput) :
    ∀ (cfgs : List Cfg) (idx i : ℕ),
      (expLosses runs idx cfgs)[i]? =
        cfgs[i]?.map (fun _ =>
          (lossKey (idx + i), ((runs (idx + i)).train_losses, (runs (idx + i)).val_losses))) := by
  intro cfgs
  induction cfgs with
  | nil => intro idx i; simp [expLosses]
  | cons cfg rest ih =>
    intro idx i
    match i with
    | 0 => simp [expLosses]
    | i + 1 =>
      rw [show expLosses runs idx (cfg :: rest) =
        (lossKey idx, ((runs idx).train_losses, (runs idx).val_losses)) :: expLosses runs (idx + 1) rest from rfl]
      simp only [List.getElem?_cons_succ]
      rw [ih (idx + 1) i]
      have e1 : idx + 1 + i = idx + (i + 1) := by omega
      rw [e1]

theorem countHeaders_cons_header (l : List (CsvLine Cfg)) :
    countHeaders (CsvLine.header :: l) = countHeaders l + 1 := by
  unfold countHeaders
  rw [List.countP_cons]
  simp [CsvLine.isHeader]

theorem countRows_cons_header (l : List (CsvLine Cfg)) :
    countRows (CsvLine.header :: l) = countRows l := by
  unfold countRows
  rw [List.countP_cons]
  simp [CsvLine.isHeader]

theorem countHeaders_map_row :
    ∀ (l : List (ResultRecord Cfg)), countHeaders (l.map CsvLine.row) = 0 := by
  intro l
  induction l with
  | nil => rfl
  | cons r rest ih =>
    rw [List.map_cons]
    unfold countHeaders at ih ⊢
    rw [List.countP_cons]
    simp [CsvLine.isHeader, ih]

theorem countRows_map_row :
    ∀ (l : List (ResultRecord Cfg)), countRows (l.map CsvLine.row) = l.length := by
  intro l
  induction l with
  | nil => rfl
  | cons r rest ih =>
    rw [List.map_cons]
    unfold countRows at ih ⊢
    rw [List.countP_cons]
    simp [CsvLine.isHeader, ih]

/-! ### The claims -/

/-- Claim C1: in the epoch loop of `train_and_evaluate`, early stopping
follows this algorithm: `best_val_loss` starts at infinity and the strike
counter at 0; after each epoch, if the epoch's cumulative validation loss
(the sum of per-batch losses) is strictly below `best_val_loss` then the
best is updated and the counter resets to 0, otherwise the counter is
incremented; when the counter reaches 5 the epoch loop stops immediately,
with the epoch's train and validation losses already recorded. -/
theorem c1_early_stopping_rule (P : Type) (env : Env P) (e : ℕ) (s : LoopState P) :
    (initState env).best_val_loss = FVal.inf ∧
    (initState env).epochs_without_improvement = 0 ∧
    (FVal.lt (valSum env e) s.best_val_loss = true →
      (doEpoch env e s).best_val_loss = valSum env e ∧
      (doEpoch env e s).epochs_without_improvement = 0 ∧
      (doEpoch env e s).stopped = false) ∧
    (FVal.lt (valSum env e) s.best_val_loss = false →
      (doEpoch env e s).best_val_loss = s.best_val_loss ∧
      (doEpoch env e s).epochs_without_improvement = s.epochs_without_improvement + 1 ∧
      ((doEpoch env e s).stopped = true ↔ 5 ≤ s.epochs_without_improvement + 1)) ∧
    (doEpoch env e s).train_losses.length = s.train_losses.length + 1 ∧
    (doEpoch env e s).val_losses.length = s.val_losses.length + 1 ∧
    (∀ rest, s.stopped = false → (doEpoch env e s).stopped = true →
      epochLoop env s (e :: rest) = doEpoch env e s) := by
  refine ⟨rfl, rfl, doEpoch_of_lt env e s, ?_, ?_, ?_, ?_⟩
  · intro h
    have hd := doEpoch_of_not_lt env e s h
    refine ⟨hd.1, hd.2.1, ?_⟩
    rw [hd.2.2]
    unfold patience
    exact ⟨of_decide_eq_true, decide_eq_true⟩
  · rw [doEpoch_train_losses, List.length_append]
    rfl
  · rw [doEpoch_val_losses, List.length_append]
    rfl
  · intro rest h0 h1
    rw [epochLoop_cons, if_neg (by rw [h0]; exact Bool.false_ne_true),
      epochLoop_of_stopped env _ h1]

/-- Witness for C1 at a concrete input: epoch 0 of `c2Env` from the
initial state strictly improves the infinite initial best, so the best
becomes the epoch's cumulative loss and the counter resets. -/
theorem c1_early_stopping_rule_witness :
    FVal.lt (valSum c2Env 0) ((initState c2Env).best_val_loss) = true ∧
    (doEpoch c2Env 0 (initState c2Env)).best_val_loss = valSum c2Env 0 ∧
    (doEpoch c2Env 0 (initState c2Env)).epochs_without_improvement = 0 ∧
    (doEpoch c2Env 0 (initState c2Env)).stopped = false :=
  ⟨rfl, (c1_early_stopping_rule Unit c2Env 0 (initState c2Env)).2.2.1 rfl⟩

/-- Claim C4: for every completed invocation of `train_and_evaluate`, the
returned train-loss and validation-loss sequences have equal length, that
length is at most 25, and it is strictly below 25 only because early
stopping (the recorded `break`) ended the epoch loop. -/
theorem c4_history_lengths (P : Type) (env : Env P) :
    (runLoop env).train_losses.length = (runLoop env).val_losses.length ∧
    (runLoop env).val_losses.length ≤ 25 ∧
    ((runLoop env).val_losses.length < 25 → (runLoop env).stopped = true) := by
  have h := runUpTo_lengths env numEpochs
  refine ⟨h.1, h.2.1, ?_⟩
  intro hlt
  by_contra hstop
  rw [Bool.not_eq_true] at hstop
  have h25 : (runLoop env).val_losses.length = 25 := h.2.2 hstop
  rw [h25] at hlt
  exact absurd hlt (by omega)

/-- Claim C5: for every `model_type` outside {MLP, MLP_3CH, CNN, CNN_3CH},
`train_and_evaluate` raises a fatal error before any training epoch runs:
the result is an `Except.error`, so no loss history or metrics are
produced. -/
theorem c5_invalid_model_type (P : Type) (env : Env P) (mt : String)
    (r1 c1 r c : Option (List ℤ)) (h : mt ∉ modelTypes) :
    ∃ msg, train_and_evaluate env mt r1 c1 r c = Except.error msg := by
  unfold train_and_evaluate
  by_cases h1 : shuffleCheck c1 c = false
  · rw [if_pos h1]
    exact ⟨_, rfl⟩
  · rw [if_neg h1]
    by_cases h2 : shuffleCheck r1 r = false
    · rw [if_pos h2]
      exact ⟨_, rfl⟩
    · rw [if_neg h2, if_neg h]
      exact ⟨_, rfl⟩

/-- Witness for C5 at a concrete input: the model type "Transformer" is
outside the accepted set and makes `train_and_evaluate` fail. -/
theorem c5_invalid_model_type_witness :
    "Transformer" ∉ modelTypes ∧
    ∃ msg, train_and_evaluate unitEnv "Transformer" none none none none =
      Except.error msg :=
  ⟨by decide,
   c5_invalid_model_type Unit unitEnv "Transformer" none none none none (by decide)⟩

/-- Claim C6: for every epoch that completes, the value appended to the
train-loss history is the sum of the epoch's per-batch training losses
divided by the number of training batches, the value appended to the
validation-loss history is the sum of the per-batch validation losses
divided by the number of validation batches, and the early-stopping
update compares the undivided validation sum against `best_val_loss`. -/
theorem c6_epoch_loss_recording (P : Type) (env : Env P) (e : ℕ) (s : LoopState P)
    (ht : 0 < (env.trainBatchLosses e).length)
    (hv : 0 < (env.valBatchLosses e).length) :
    (doEpoch env e s).train_losses = s.train_losses ++
      [FVal.divNat (FVal.sum (env.trainBatchLosses e)) (env.trainBatchLosses e).length] ∧
    (doEpoch env e s).val_losses = s.val_losses ++
      [FVal.divNat (FVal.sum (env.valBatchLosses e)) (env.valBatchLosses e).length] ∧
    ((doEpoch env e s).best_val_loss =
      if FVal.lt (FVal.sum (env.valBatchLosses e)) s.best_val_loss then
        FVal.sum (env.valBatchLosses e)
      else s.best_val_loss) ∧
    ((doEpoch env e s).epochs_without_improvement =
      if FVal.lt (FVal.sum (env.valBatchLosses e)) s.best_val_loss then 0
      else s.epochs_without_improvement + 1) := by
  refine ⟨doEpoch_train_losses env e s, doEpoch_val_losses env e s, ?_, ?_⟩
  · by_cases h : FVal.lt (FVal.sum (env.valBatchLosses e)) s.best_val_loss = true
    · rw [if_pos h]
      exact (doEpoch_of_lt env e s h).1
    · rw [Bool.not_eq_true] at h
      rw [if_neg (by rw [h]; exact Bool.false_ne_true)]
      exact (doEpoch_of_not_lt env e s h).1
  · by_cases h : FVal.lt (FVal.sum (env.valBatchLosses e)) s.best_val_loss = true
    · rw [if_pos h]
      exact (doEpoch_of_lt env e s h).2.1
    · rw [Bool.not_eq_true] at h
      rw [if_neg (by rw [h]; exact Bool.false_ne_true)]
      exact (doEpoch_of_not_lt env e s h).2.1

/-- Witness for C6 at a concrete input: epoch 0 of `c2Env` from the
initial state has one training batch and one validation batch, and the
recorded values are the batch-loss sums divided by those counts. -/
theorem c6_epoch_loss_recording_witness :
    0 < (c2Env.trainBatchLosses 0).length ∧
    0 < (c2Env.valBatchLosses 0).length ∧
    ((doEpoch c2Env 0 (initState c2Env)).train_losses =
      (initState c2Env).train_losses ++
        [FVal.divNat (FVal.sum (c2Env.trainBatchLosses 0)) (c2Env.trainBatchLosses 0).length] ∧
    (doEpoch c2Env 0 (initState c2Env)).val_losses =
      (initState c2Env).val_losses ++
        [FVal.divNat (FVal.sum (c2Env.valBatchLosses 0)) (c2Env.valBatchLosses 0).length] ∧
    ((doEpoch c2Env 0 (initState c2Env)).best_val_loss =
      if FVal.lt (FVal.sum (c2Env.valBatchLosses 0)) ((initState c2Env).best_val_loss) then
        FVal.sum (c2Env.valBatchLosses 0)
      else (initState c2Env).best_val_loss) ∧
    ((doEpoch c2Env 0 (initState c2Env)).epochs_without_improvement =
      if FVal.lt (FVal.sum (c2Env.valBatchLosses 0)) ((initState c2Env).best_val_loss) then 0
      else (initState c2Env).epochs_without_improvement + 1)) :=
  ⟨by decide, by decide,
   c6_epoch_loss_recording Unit c2Env 0 (initState c2Env) (by decide) (by decide)⟩

/-- Claim C9: for every run of `train_and_evaluate` that returns, the
test-phase metrics (accuracy, F1, precision, recall) are computed from
the model's parameter state after the last executed training epoch (the
parameters obtained by folding the per-epoch updates over exactly as many
epochs as the recorded history holds); the parameters of the epoch that
achieved `best_val_loss` are never restored before testing. -/
theorem c9_test_uses_final_params (P : Type) (env : Env P) (mt : String)
    (r1 c1 r c : Option (List ℤ)) (out : RunOutput)
    (h : train_and_evaluate env mt r1 c1 r c = Except.ok out) :
    out.accuracy = (env.testMetrics (trainedParams env out.train_losses.length)).accuracy ∧
    out.f1 = (env.testMetrics (trainedParams env out.train_losses.length)).f1 ∧
    out.precision = (env.testMetrics (trainedParams env out.train_losses.length)).precision ∧
    out.recall_score =
      (env.testMetrics (trainedParams env out.train_losses.length)).recall_score := by
  have hparams : (runLoop env).params =
      trainedParams env ((runLoop env).train_losses.length) := by
    have h1 := runUpTo_params env numEpochs
    have h2 := (runUpTo_lengths env numEpochs).1
    rw [show (runLoop env).params = (runUpTo env numEpochs).params from rfl, h1, ← h2]
    rfl
  unfold train_and_evaluate at h
  by_cases h1 : shuffleCheck c1 c = false
  · rw [if_pos h1] at h
    exact Except.noConfusion h
  · rw [if_neg h1] at h
    by_cases h2 : shuffleCheck r1 r = false
    · rw [if_pos h2] at h
      exact Except.noConfusion h
    · rw [if_neg h2] at h
      by_cases h3 : mt ∈ modelTypes
      · rw [if_pos h3] at h
        injection h with h
        rw [← h]
        unfold runOutputOf
        rw [← hparams]
        exact ⟨rfl, rfl, rfl, rfl⟩
      · rw [if_neg h3] at h
        exact Except.noConfusion h

/-- Witness for C9 at a concrete input: the successful run of `unitEnv`
with model type "MLP" returns metrics computed from the final trained
parameter state. -/
theorem c9_test_uses_final_params_witness :
    train_and_evaluate unitEnv "MLP" none none none none = Except.ok uOut ∧
    uOut.accuracy =
      (unitEnv.testMetrics (trainedParams unitEnv uOut.train_losses.length)).accuracy :=
  ⟨rfl,
   (c9_test_uses_final_params Unit unitEnv "MLP" none none none none uOut rfl).1⟩

/-- Claim C10: if every epoch's cumulative validation loss is a finite
number, early stopping can never end the epoch loop before epoch 6,
because epoch 1's finite loss strictly improves the infinite initial
`best_val_loss` and five further non-improving epochs are then required;
hence the returned loss sequences have length at least 6 and at most 25. -/
theorem c10_at_least_six_epochs (P : Type) (env : Env P)
    (h : ∀ e, e < numEpochs → (valSum env e).isFinite = true) :
    6 ≤ (runLoop env).train_losses.length ∧
    6 ≤ (runLoop env).val_losses.length ∧
    (runLoop env).train_losses.length ≤ 25 ∧
    (runLoop env).val_losses.length ≤ 25 := by
  have h0 : (valSum env 0).isFinite = true := h 0 (by unfold numEpochs; omega)
  have h5 := no_stop_before_six env h0 5 (by omega) (Nat.le_refl 5)
  have h6 : (runUpTo env 6).val_losses.length = 6 := by
    rw [runUpTo_succ, if_neg (by rw [h5.1]; exact Bool.false_ne_true),
      doEpoch_val_losses, List.length_append]
    have h55 := (runUpTo_lengths env 5).2.2 h5.1
    simp [h55]
  have hmono := runUpTo_len_mono env (show 6 ≤ numEpochs by unfold numEpochs; omega)
  rw [h6] at hmono
  have hlen := runUpTo_lengths env numEpochs
  have hle : (runLoop env).val_losses.length ≤ 25 := hlen.2.1
  have heq : (runLoop env).train_losses.length = (runLoop env).val_losses.length := hlen.1
  have hm : 6 ≤ (runLoop env).val_losses.length := hmono
  exact ⟨by rw [heq]; exact hm, hm, by rw [heq]; exact hle, hle⟩

/-- Witness for C10 at a concrete input: every cumulative validation loss
of `unitEnv` is the finite value 1, and the run indeed records at least 6
epochs. -/
theorem c10_at_least_six_epochs_witness :
    (∀ e, e < numEpochs → (valSum unitEnv e).isFinite = true) ∧
    6 ≤ (runLoop unitEnv).val_losses.length :=
  ⟨by decide, (c10_at_least_six_epochs Unit unitEnv (by decide)).2.1⟩

/-- Counterexample for C3 as stated: the training-data load returns no
row permutation (`none`) while the test-data load returns one, so the
permutation pairs differ, yet `train_and_evaluate` does not abort — the
guarded assert of train.py lines 41-42 is skipped when either side is
`None` and the run continues to a successful result. -/
theorem c3_shuffle_mismatch_cex :
    (none : Option (List ℤ)) ≠ some ([0, 1] : List ℤ) ∧
    train_and_evaluate unitEnv "MLP" none none (some [0, 1]) none =
      Except.ok uOut :=
  ⟨by simp, rfl⟩

/-- Claim C3 as amended: when BOTH the training-data load and the
test-data load return (non-`None`) column permutations and they differ,
`train_and_evaluate` aborts with the fatal column-mismatch error before
training; when the column check passes and both row permutations are
present but differ, it aborts with the fatal row-mismatch error.  (A
mismatch in which either side is `None` is not detected: the asserts of
train.py lines 39-42 only run when both orders are non-`None`.) -/
theorem c3_shuffle_mismatch_aborts (P : Type) (env : Env P) (mt : String)
    (r1 c1 r c : Option (List ℤ)) :
    (∀ x y, c1 = some x → c = some y → x ≠ y →
      train_and_evaluate env mt r1 c1 r c =
        Except.error "Shuffle order columns do not match!") ∧
    (shuffleCheck c1 c = true →
      ∀ x y, r1 = some x → r = some y → x ≠ y →
        train_and_evaluate env mt r1 c1 r c =
          Except.error "Shuffle order rows do not match!") := by
  constructor
  · intro x y hx hy hxy
    subst hx
    subst hy
    unfold train_and_evaluate
    rw [if_pos (show shuffleCheck (some x) (some y) = false from decide_eq_false hxy)]
  · intro hcol x y hx hy hxy
    subst hx
    subst hy
    unfold train_and_evaluate
    rw [if_neg (by simp [hcol])]
    rw [if_pos (show shuffleCheck (some x) (some y) = false from decide_eq_false hxy)]

/-- Claim C7: for every configuration list of length N, a completed run
of `main_train` leaves a result file with exactly one header line and
exactly N data rows, and a loss-history file with exactly N top-level
entries; the data row at position `idx` is the record for configuration
`idx`, carrying `model_index = idx`, and the loss entry at position `idx`
is keyed `"model_idx"` — regardless of whether or where early stopping
triggered (the `runs` outputs are arbitrary). -/
theorem c7_output_files (Cfg : Type) (runs : ℕ → RunOutput) (cfgs : List Cfg) :
    countHeaders (main_train runs cfgs).csvFile = 1 ∧
    countRows (main_train runs cfgs).csvFile = cfgs.length ∧
    (main_train runs cfgs).jsonFile.length = cfgs.length ∧
    ∀ i, i < cfgs.length →
      ((main_train runs cfgs).csvFile[i + 1]? =
        cfgs[i]?.map (fun cfg => CsvLine.row (mkRecord i cfg (runs i))) ∧
      (∀ cfg : Cfg, (mkRecord i cfg (runs i)).model_index = i) ∧
      (main_train runs cfgs).jsonFile[i]? =
        cfgs[i]?.map (fun _ =>
          (lossKey i, ((runs i).train_losses, (runs i).val_losses)))) := by
  have hcsv : (main_train runs cfgs).csvFile =
      CsvLine.header :: (expRecords runs 0 cfgs).map CsvLine.row := by
    unfold main_train finalizeOrch
    rw [show (orchLoop runs 0 cfgs initOrch).results =
      (initOrch : OrchState Cfg).results ++ expRecords runs 0 cfgs from
        orchLoop_results runs cfgs 0 initOrch]
    rfl
  have hjson : (main_train runs cfgs).jsonFile = expLosses runs 0 cfgs := by
    unfold main_train finalizeOrch
    rw [show (orchLoop runs 0 cfgs initOrch).all_losses =
      (initOrch : OrchState Cfg).all_losses ++ expLosses runs 0 cfgs from
        orchLoop_all_losses runs cfgs 0 initOrch]
    rfl
  refine ⟨?_, ?_, ?_, ?_⟩
  · rw [hcsv, countHeaders_cons_header, countHeaders_map_row]
  · rw [hcsv, countRows_cons_header, countRows_map_row, expRecords_length]
  · rw [hjson, expLosses_length]
  · intro i hi
    refine ⟨?_, fun cfg => rfl, ?_⟩
    · rw [hcsv]
      rw [show (CsvLine.header :: (expRecords runs 0 cfgs).map CsvLine.row)[i + 1]? =
        ((expRecords runs 0 cfgs).map CsvLine.row)[i]? from List.getElem?_cons_succ]
      rw [List.getElem?_map, expRecords_getElem?]
      simp
      rfl
    · rw [hjson, expLosses_getElem?]
      simp

/-- Claim C8: starting from an empty or absent result file, after
configuration k completes in `main_train` (and before configuration k+1
starts), the result file on disk is exactly the header line followed by
the k+1 data rows of the configurations completed so far (so the header
was written exactly once, on the first append into the empty file), and
the loss-history file holds exactly k+1 entries. -/
theorem c8_incremental_durability (Cfg : Type) (runs : ℕ → RunOutput)
    (cfgs : List Cfg) (k : ℕ) (hk : k < cfgs.length) :
    (orchUpTo runs cfgs (k + 1)).csvFile =
      CsvLine.header :: ((expRecords runs 0 (cfgs.take (k + 1))).map CsvLine.row) ∧
    countHeaders (orchUpTo runs cfgs (k + 1)).csvFile = 1 ∧
    countRows (orchUpTo runs cfgs (k + 1)).csvFile = k + 1 ∧
    (orchUpTo runs cfgs (k + 1)).jsonFile.length = k + 1 := by
  have htake : (cfgs.take (k + 1)).length = k + 1 := by
    rw [List.length_take]
    omega
  have hrecne : expRecords runs 0 (cfgs.take (k + 1)) ≠ [] := by
    intro hnil
    have hl := expRecords_length runs (cfgs.take (k + 1)) 0
    rw [hnil, htake] at hl
    exact absurd hl.symm (by simp)
  have hcsv : (orchUpTo runs cfgs (k + 1)).csvFile =
      CsvLine.header :: ((expRecords runs 0 (cfgs.take (k + 1))).map CsvLine.row) := by
    unfold orchUpTo
    rw [orchLoop_csvFile]
    exact foldl_appendCsv_nil _ hrecne
  have hjson : (orchUpTo runs cfgs (k + 1)).jsonFile.length = k + 1 := by
    unfold orchUpTo
    rw [orchLoop_jsonFile runs _ 0 initOrch rfl,
      show (orchLoop runs 0 (cfgs.take (k + 1)) initOrch).all_losses =
        (initOrch : OrchState Cfg).all_losses ++ expLosses runs 0 (cfgs.take (k + 1)) from
          orchLoop_all_losses runs _ 0 initOrch]
    rw [show ((initOrch : OrchState Cfg).all_losses ++
        expLosses runs 0 (cfgs.take (k + 1))) = expLosses runs 0 (cfgs.take (k + 1)) from rfl]
    rw [expLosses_length, htake]
  refine ⟨hcsv, ?_, ?_, hjson⟩
  · rw [hcsv, countHeaders_cons_header, countHeaders_map_row]
  · rw [hcsv, countRows_cons_header, countRows_map_row, expRecords_length, htake]

/-- Witness for C8 at a concrete input: with two configurations and a
constant run oracle, after the first configuration completes the result
file holds the header and one row, and the loss file one entry. -/
theorem c8_incremental_durability_witness :
    (0 : ℕ) < ([(), ()] : List Unit).length ∧
    ((orchUpTo (fun _ => zeroOut) [(), ()] 1).csvFile =
      CsvLine.header ::
        ((expRecords (fun _ => zeroOut) 0 (([(), ()] : List Unit).take 1)).map CsvLine.row) ∧
    countHeaders (orchUpTo (fun _ => zeroOut) [(), ()] 1).csvFile = 1 ∧
    countRows (orchUpTo (fun _ => zeroOut) [(), ()] 1).csvFile = 1 ∧
    (orchUpTo (fun _ => zeroOut) [(), ()] 1).jsonFile.length = 1) :=
  ⟨by decide,
   c8_incremental_durability Unit (fun _ => zeroOut) [(), ()] 0 (by decide)⟩

/-- Counterexample for C2 as stated: on the synthetic cumulative
validation-loss sequence `[10, 9, 9, 9, 9, 9, 5]`, the early-stopping
rule does NOT stop training at epoch 6 — epoch 2's loss 9 strictly
improves the best 10, so epochs 3-6 give only four consecutive
non-improving epochs; after all seven epochs the loop has not stopped and
both histories hold 7 entries. -/
theorem c2_synthetic_sequence_cex :
    (runUpTo c2Env 7).stopped = false ∧
    (runUpTo c2Env 7).val_losses.length = 7 := by
  norm_num [runUpTo, List.range_succ, epochLoop_append, epochLoop, doEpoch,
    initState, c2Env, c2seq, valSum, FVal.sum, FVal.add, FVal.lt, FVal.divNat,
    patience, List.getD]

/-- Claim C2 as amended: for the synthetic cumulative validation-loss
sequence `[10, 9, 9, 9, 9, 9, 5]` early stopping does not trigger within
the seven epochs (all seven run and are recorded); and in general the
epoch loop of `train_and_evaluate` stops early exactly when there are 5
consecutive executed epochs, all within the 25-epoch budget, each of
which fails to strictly improve the best cumulative validation loss held
when it runs. -/
theorem c2_early_stopping_iff :
    ((runUpTo c2Env 7).stopped = false ∧
      (runUpTo c2Env 7).train_losses.length = 7 ∧
      (runUpTo c2Env 7).val_losses.length = 7) ∧
    ∀ (P : Type) (env : Env P),
      ((runLoop env).stopped = true ↔
        ∃ n, n + 5 ≤ 25 ∧ ∀ i, i < 5 → failsAtB env (n + i) = true) := by
  constructor
  · norm_num [runUpTo, List.range_succ, epochLoop_append, epochLoop, doEpoch,
      initState, c2Env, c2seq, valSum, FVal.sum, FVal.add, FVal.lt, FVal.divNat,
      patience, List.getD]
  intro P env
  constructor
  · intro hstop
    have hstop' : (runUpTo env 25).stopped = true := hstop
    obtain ⟨m, hm25, hms, hms'⟩ := switch_exists env 25 hstop'
    rw [runUpTo_succ, if_neg (by rw [hms]; exact Bool.false_ne_true)] at hms'
    rw [doEpoch_stopped_iff] at hms'
    obtain ⟨hlt, hp⟩ := hms'
    have hp5 : 5 ≤ (runUpTo env m).epochs_without_improvement + 1 := hp
    have h4 : 4 ≤ (runUpTo env m).epochs_without_improvement := by omega
    have hm4 : 4 ≤ m := by
      have := fails_of_ctr env m hms 3 (by omega)
      omega
    refine ⟨m - 4, by omega, ?_⟩
    intro i hi
    unfold failsAtB
    by_cases hi4 : i = 4
    · subst hi4
      have e1 : m - 4 + 4 = m := by omega
      rw [e1, hms, hlt]
      rfl
    · have hji : 3 - i < (runUpTo env m).epochs_without_improvement := by omega
      have hf := fails_of_ctr env m hms (3 - i) hji
      have e1 : m - 1 - (3 - i) = m - 4 + i := by omega
      rw [e1] at hf
      rw [hf.2.1, hf.2.2]
      rfl
  · rintro ⟨n, hn25, hfail⟩
    have hfail' : ∀ i, i < 5 →
        (runUpTo env (n + i)).stopped = false ∧
        FVal.lt (valSum env (n + i)) ((runUpTo env (n + i)).best_val_loss) = false := by
      intro i hi
      have h := hfail i hi
      unfold failsAtB at h
      simp only [Bool.and_eq_true, Bool.not_eq_true'] at h
      exact h
    have key : ∀ i, i ≤ 4 →
        (runUpTo env (n + i + 1)).stopped = true ∨
        i + 1 ≤ (runUpTo env (n + i + 1)).epochs_without_improvement := by
      intro i
      induction i with
      | zero =>
        intro _
        have hf := hfail' 0 (by omega)
        have e0 : n + 0 = n := rfl
        rw [e0] at hf
        right
        rw [runUpTo_succ, if_neg (by rw [hf.1]; exact Bool.false_ne_true)]
        rw [(doEpoch_of_not_lt env n (runUpTo env n) hf.2).2.1]
        omega
      | succ i ih =>
        intro hle
        have hf := hfail' (i + 1) (by omega)
        have e : n + (i + 1) = n + i + 1 := rfl
        rw [e] at hf
        by_cases hs : (runUpTo env (n + i + 1)).stopped = true
        · left
          have e2 : n + (i + 1) + 1 = n + i + 1 + 1 := rfl
          rw [e2, runUpTo_succ, if_pos hs]
          exact hs
        · rw [Bool.not_eq_true] at hs
          have e2 : n + (i + 1) + 1 = n + i + 1 + 1 := rfl
          rw [e2, runUpTo_succ, if_neg (by rw [hs]; exact Bool.false_ne_true)]
          right
          rw [(doEpoch_of_not_lt env (n + i + 1) (runUpTo env (n + i + 1)) hf.2).2.1]
          have hctr := ih (by omega)
          cases hctr with
          | inl h => exact absurd h (by rw [hs]; exact Bool.false_ne_true)
          | inr h => omega
    have h5 := key 4 (Nat.le_refl 4)
    have hstop5 : (runUpTo env (n + 5)).stopped = true := by
      cases h5 with
      | inl h => exact h
      | inr h =>
        by_cases hs : (runUpTo env (n + 5)).stopped = true
        · exact hs
        · rw [Bool.not_eq_true] at hs
          have hc4 := ctr_le_four env (n + 5) hs
          have h' : 5 ≤ (runUpTo env (n + 5)).epochs_without_improvement := h
          omega
    exact stopped_mono env hn25 hstop5

end Train
